import Mathlib

/-!
Shallow embedding of the amortization engine in `src/amortisation.py`.

Conventions of the embedding:
* Python floats are modelled as exact rationals (`ℚ`).  All arithmetic in the
  source is plain field arithmetic, so every identity proved here is the exact
  ideal of the floating-point computation.
* `datetime` values are modelled by a `Date` structure (year, month, day) with
  the usual lexicographic order, realised through an injective integer key.
* `relativedelta(months=1)` advances the month and clamps the day to the
  length of the target month, following dateutil's documented behaviour.
* A `dd/mm/yyyy` string produced by `strftime` is modelled by its three
  numeric fields; `strptime` validation (month range, day-of-month range with
  leap years) is modelled by `daysInMonth`.
* Raising `ValueError` is modelled by `Except.error`.
-/

/-! ## Dates -/

/-- A calendar date, as carried by Python `datetime` values. -/
structure Date where
  year : Int
  month : Nat
  day : Nat
deriving DecidableEq, Repr

/-- Injective key realising the chronological order on dates
(valid months are ≤ 12 and days ≤ 31, so the mixed radix never carries). -/
def Date.key (d : Date) : Int :=
  d.year * 10000 + (d.month : Int) * 100 + (d.day : Int)

/-- Gregorian leap-year rule, as implemented by Python's `datetime`. -/
def isLeap (y : Int) : Bool :=
  (y % 4 == 0 && y % 100 != 0) || (y % 400 == 0)

/-- Number of days of month `m` of year `y`. -/
def daysInMonth (y : Int) (m : Nat) : Nat :=
  if m = 2 then (if isLeap y then 29 else 28)
  else if m = 4 ∨ m = 6 ∨ m = 9 ∨ m = 11 then 30
  else 31

/-- `current_date += relativedelta(months=1)` (src line 84): advance by one
calendar month, clamping the day to the last valid day of the target month. -/
def addMonth (d : Date) : Date :=
  if 12 ≤ d.month then
    { year := d.year + 1, month := 1, day := min d.day (daysInMonth (d.year + 1) 1) }
  else
    { year := d.year, month := d.month + 1,
      day := min d.day (daysInMonth d.year (d.month + 1)) }

/-- `get_financial_year` (src lines 29-32). -/
def get_financial_year (d : Date) : Int :=
  if 4 ≤ d.month then d.year else d.year - 1

/-- `format_fy` (src lines 35-36): Python `str(year+1)[-2:]` keeps the last
two characters, which `String.takeRight 2` reproduces. -/
def format_fy (y : Int) : String :=
  "FY " ++ toString y ++ "-" ++ (toString (y + 1)).takeRight 2

/-- `parse_date` (src lines 39-43) on a `dd/mm/yyyy`-shaped string whose two
day/month fields hold `f1` and `f2` and whose year field holds `y`:
`strptime` with `%m/%d/%Y` succeeds iff `f1` is a valid month and `f2` a valid
day of that month; otherwise `%d/%m/%Y` is tried; `none` models the final
uncaught `ValueError`. -/
def parse_date (f1 f2 : Nat) (y : Int) : Option Date :=
  if 1 ≤ f1 ∧ f1 ≤ 12 ∧ 1 ≤ f2 ∧ f2 ≤ daysInMonth y f1 then
    some { year := y, month := f1, day := f2 }
  else if 1 ≤ f2 ∧ f2 ≤ 12 ∧ 1 ≤ f1 ∧ f1 ≤ daysInMonth y f2 then
    some { year := y, month := f2, day := f1 }
  else
    none

/-- Round trip of a schedule date through `strftime('%d/%m/%Y')` (src line 75)
and `parse_date` (src line 91).  The `getD` branch is unreachable for
calendar-valid dates (the `%d/%m/%Y` attempt always succeeds on them). -/
def reparse (d : Date) : Date :=
  (parse_date d.day d.month d.year).getD d

/-! ## Schedule generator (`calculate_amortization`, src lines 46-86) -/

/-- One row of the amortization schedule (src lines 74-82).  All money fields
are in lakhs, exactly as stored by the source; the redundant `EMI_Lakhs`
column always equals `Payment_Lakhs` and is not duplicated here. -/
structure Row where
  date : Date
  fy : Int
  principal : ℚ
  interest : ℚ
  payment : ℚ
  balance : ℚ
deriving DecidableEq, Repr

/-- The loop of src lines 64-84.  `b` and `e` are the running `balance` and
`emi` in absolute currency units; recorded fields divide by 100000. -/
def amortLoop (r : ℚ) : Nat → Date → ℚ → ℚ → List Row
  | 0, _, _, _ => []
  | k + 1, d, b, e =>
    let interest := b * r
    let p0 := e - interest
    let p := if b < p0 then b else p0
    let e2 := if b < p0 then b + interest else e
    let b2 := b - p
    { date := d, fy := get_financial_year d, principal := p / 100000,
      interest := interest / 100000, payment := e2 / 100000,
      balance := b2 / 100000 } :: amortLoop r k (addMonth d) b2 e2

/-- The level-installment formula of src line 56. -/
def emiFormula (A r : ℚ) (n : Nat) : ℚ :=
  A * (r * (1 + r) ^ n) / ((1 + r) ^ n - 1)

/-- `calculate_amortization` (src lines 46-86).  The start date is taken
already parsed (the caller parses `'%Y-%m-%d'` at src line 62). -/
def calculate_amortization (loan_amount_lakhs annual_rate : ℚ) (term_months : Int)
    (start_date : Date) (payment_amount_lakhs : Option ℚ) :
    Except String (List Row) :=
  if loan_amount_lakhs ≤ 0 ∨ annual_rate ≤ 0 ∨ 50 ≤ annual_rate ∨ term_months ≤ 0 then
    .error "Invalid input: Loan Amount, Interest Rate, and Loan Term must be positive; Interest Rate must be < 50%."
  else
    let loan_amount := loan_amount_lakhs * 100000
    let monthly_rate := annual_rate / 100 / 12
    let n := term_months.toNat
    let emi :=
      match payment_amount_lakhs with
      | none => emiFormula loan_amount monthly_rate n
      | some p => if p = 0 then emiFormula loan_amount monthly_rate n else p * 100000
    .ok (amortLoop monthly_rate n start_date loan_amount emi)

/-! ### State-machine view of the loop, used by the proofs -/

/-- One step of the loop on the `(balance, emi)` state. -/
def stepB (r : ℚ) (s : ℚ × ℚ) : ℚ × ℚ :=
  let p0 := s.2 - s.1 * r
  if s.1 < p0 then (s.1 - s.1, s.1 + s.1 * r) else (s.1 - p0, s.2)

/-- The `(balance, emi)` state after `k` iterations of the loop. -/
def stateAt (r : ℚ) : Nat → ℚ × ℚ → ℚ × ℚ
  | 0, s => s
  | k + 1, s => stateAt r k (stepB r s)

/-- The schedule date of period `i` (0-based). -/
def dateAt (d : Date) : Nat → Date
  | 0 => d
  | k + 1 => dateAt (addMonth d) k

/-- The row recorded by one loop iteration from state `s` on date `d`. -/
def mkRow (r : ℚ) (d : Date) (s : ℚ × ℚ) : Row :=
  let interest := s.1 * r
  let p0 := s.2 - interest
  let p := if s.1 < p0 then s.1 else p0
  let e2 := if s.1 < p0 then s.1 + interest else s.2
  { date := d, fy := get_financial_year d, principal := p / 100000,
    interest := interest / 100000, payment := e2 / 100000,
    balance := (s.1 - p) / 100000 }

/-- Sum of the recorded principal components, in lakhs. -/
def principalSum (s : List Row) : ℚ := (s.map Row.principal).sum

/-- Closing balance of the last recorded row (0 for an empty schedule). -/
def lastBalance (s : List Row) : ℚ := (s.getLast?.map Row.balance).getD 0

/-- The schedule carried by an `Except` result (empty on error). -/
def schedOf (x : Except String (List Row)) : List Row := x.toOption.getD []

/-- Opening balance of 0-based period `i`: the original principal for the
first period, the previous row's closing balance otherwise (lakhs). -/
def opening (P : ℚ) (sched : List Row) : Nat → ℚ
  | 0 => P
  | i + 1 => ((sched.get? i).map Row.balance).getD 0

theorem amortLoop_cons (r : ℚ) (k : Nat) (d : Date) (b e : ℚ) :
    amortLoop r (k + 1) d b e =
      mkRow r d (b, e) ::
        amortLoop r k (addMonth d) (stepB r (b, e)).1 (stepB r (b, e)).2 := by
  simp only [amortLoop, mkRow, stepB]
  split <;> simp

theorem amortLoop_length (r : ℚ) : ∀ (k : Nat) (d : Date) (b e : ℚ),
    (amortLoop r k d b e).length = k := by
  intro k
  induction k with
  | zero => intro d b e; rfl
  | succ k ih =>
    intro d b e
    rw [amortLoop_cons]
    simp [ih]

theorem amortLoop_get? (r : ℚ) : ∀ (k i : Nat) (d : Date) (b e : ℚ), i < k →
    (amortLoop r k d b e).get? i =
      some (mkRow r (dateAt d i) (stateAt r i (b, e))) := by
  intro k
  induction k with
  | zero => intro i d b e h; omega
  | succ k ih =>
    intro i d b e h
    rw [amortLoop_cons]
    cases i with
    | zero => rfl
    | succ i =>
      have hi : i < k := by omega
      simp only [List.get?_cons_succ]
      rw [ih i (addMonth d) (stepB r (b, e)).1 (stepB r (b, e)).2 hi]
      rfl

/-! ## Fiscal aggregator (`calculate_annual_metrics`, src lines 89-161) -/

/-- March 31 of `year + 1`: the end of fiscal year `year` (src lines 108, 118). -/
def fyEnd (year : Int) : Date := { year := year + 1, month := 3, day := 31 }

/-- Src line 91: every schedule date is re-parsed through `parse_date`. -/
def annualSchedule (sched : List Row) : List Row :=
  sched.map (fun row => { row with date := reparse row.date })

/-- `schedule_df['Date'].min()` (src line 94): fold of the binary minimum;
the `[]` default is unreachable (the generator emits at least one row). -/
def minDateList : List Date → Date
  | [] => { year := 1, month := 1, day := 1 }
  | h :: t => t.foldl (fun a b => if b.key < a.key then b else a) h

/-- `max(schedule_df['Financial_Year'])` (src line 95); the `[]` default is
unreachable for generated schedules. -/
def maxFyOf (s : List Row) : Int :=
  match s.map Row.fy with
  | [] => 0
  | h :: t => t.foldl max h

/-- `min_year` (src line 94). -/
def minYearOf (s : List Row) : Int := get_financial_year (minDateList (s.map Row.date))

/-- `max_year` (src line 95). -/
def maxYearOf (s : List Row) : Int := min (maxFyOf s + 1) (minYearOf s + 20)

/-- Python `range(a, b)` over integers. -/
def intRange (a b : Int) : List Int :=
  (List.range (b - a).toNat).map (fun (i : Nat) => a + (i : Int))

/-- `years = list(range(min_year, max_year))` (src line 96). -/
def yearsOf (s : List Row) : List Int := intRange (minYearOf s) (maxYearOf s)

/-- Per-year principal total: `groupby('Financial_Year')` sum, with the
`else 0.0` branch of src line 148 for years with no rows. -/
def principalFor (s : List Row) (year : Int) : ℚ :=
  ((s.filter (fun row => row.fy = year)).map Row.principal).sum

/-- Per-year interest total (src line 152). -/
def interestFor (s : List Row) (year : Int) : ℚ :=
  ((s.filter (fun row => row.fy = year)).map Row.interest).sum

/-- Outstanding balance for one fiscal year (src lines 104-113): `tail(1)` of
the rows dated on or before the fiscal year end. -/
def outstandingFor (loanAmt : ℚ) (s : List Row) (year : Int) : ℚ :=
  match s.head? with
  | none => 0
  | some first =>
    if (fyEnd year).key < first.date.key then loanAmt
    else
      match (s.filter (fun row => row.date.key ≤ (fyEnd year).key)).getLast? with
      | some row => row.balance
      | none => 0

/-- Current liability for one fiscal year (src lines 116-124): principal of
rows dated strictly after the year end and within the following 12 months
(`relativedelta(years=1)` lands on March 31 of the next year). -/
def liabilityFor (s : List Row) (year : Int) : ℚ :=
  ((s.filter (fun row =>
      (fyEnd year).key < row.date.key ∧ row.date.key ≤ (fyEnd (year + 1)).key)).map
    Row.principal).sum

/-- A single-loan summary row: the `Sr no` / `Loan name` cells plus one
labelled numeric cell per fiscal year (src lines 127-159). -/
structure Pivot where
  sr_no : String
  loan_name : String
  vals : List (String × ℚ)
deriving DecidableEq, Repr

/-- The column labels a pivot row carries. -/
def pivotCols (p : Pivot) : List String := p.vals.map Prod.fst

/-- The output bundle of `calculate_annual_metrics` (src line 161). -/
structure Metrics where
  schedule : List Row
  years : List Int
  principalP : Pivot
  interestP : Pivot
  outstandingP : Pivot
  liabilityP : Pivot

/-- `calculate_annual_metrics` (src lines 89-161). -/
def calculate_annual_metrics (sched : List Row) (sr name : String) (loanAmt : ℚ) :
    Metrics :=
  let s2 := annualSchedule sched
  let years := yearsOf s2
  { schedule := s2
    years := years
    principalP :=
      { sr_no := sr, loan_name := name,
        vals := years.map (fun y => ("Principal " ++ format_fy y, principalFor s2 y)) }
    interestP :=
      { sr_no := sr, loan_name := name,
        vals := years.map (fun y => ("Interest " ++ format_fy y, interestFor s2 y)) }
    outstandingP :=
      { sr_no := sr, loan_name := name,
        vals := years.map (fun y => ("Outstanding " ++ format_fy y, outstandingFor loanAmt s2 y)) }
    liabilityP :=
      { sr_no := sr, loan_name := name,
        vals := years.map (fun y => ("Liability " ++ format_fy y, liabilityFor s2 y)) } }

/-! ## Batch combiner (`create_excel_file`, src lines 164-185) -/

/-- Column union as performed by `pd.concat` (src line 167): the first
frame's columns, then each later frame's unseen columns in order. -/
def unionCols (frames : List Pivot) : List String :=
  frames.foldl (fun acc p => acc ++ (pivotCols p).filter (fun c => ¬ acc.contains c)) []

/-- The cell of pivot `p` in column `c` after alignment: `none` models the
NaN that `pd.concat` places in columns the row does not carry. -/
def cellValue (p : Pivot) (c : String) : Option ℚ :=
  (p.vals.find? (fun kv => kv.1 == c)).map Prod.snd

/-- `fy_columns` (src line 170): aligned columns whose label starts with the
sheet name.  (`Sr no` and `Loan name` never match the four sheet names.) -/
def fyColumns (frames : List Pivot) (sheet : String) : List String :=
  (unionCols frames).filter (fun c => c.startsWith sheet)

/-- Row-wise total (src line 171): pandas `sum(axis=1)` skips NaN, so a
missing cell contributes 0. -/
def rowTotal (frames : List Pivot) (sheet : String) (p : Pivot) : ℚ :=
  ((fyColumns frames sheet).map (fun c => (cellValue p c).getD 0)).sum

/-- Column-wise total over loans (src line 176): NaN cells are skipped. -/
def colTotal (frames : List Pivot) (c : String) : ℚ :=
  (frames.map (fun p => (cellValue p c).getD 0)).sum

/-- The combined table written to the sheet (src lines 167-182), before the
2-decimal presentation rounding of src line 182. -/
structure BatchTable where
  cols : List String
  rows : List Pivot
  rowTotals : List ℚ
  totalRowCells : List ℚ
  grandTotal : ℚ

/-- `create_excel_file` (src lines 164-185). -/
def create_excel_file (frames : List Pivot) (sheet : String) : BatchTable :=
  { cols := unionCols frames
    rows := frames
    rowTotals := frames.map (rowTotal frames sheet)
    totalRowCells := (fyColumns frames sheet).map (colTotal frames)
    grandTotal := (frames.map (rowTotal frames sheet)).sum }

/-- Modelled from the claim wording for C6: outstanding is the closing
balance of the last schedule row whose date is on or before the fiscal year
end, the full original principal if the loan has not started by then, and 0
if no row qualifies. -/
def outstandingSpec (loanAmt : ℚ) (s : List Row) (year : Int) : ℚ :=
  match s.head? with
  | none => 0
  | some first =>
    if (fyEnd year).key < first.date.key then loanAmt
    else
      match s.reverse.find? (fun row => row.date.key ≤ (fyEnd year).key) with
      | some row => row.balance
      | none => 0

theorem stateAt_add (r : ℚ) : ∀ (a b : Nat) (s : ℚ × ℚ),
    stateAt r (a + b) s = stateAt r b (stateAt r a s) := by
  intro a
  induction a with
  | zero => intro b s; rw [Nat.zero_add]; rfl
  | succ a ih =>
    intro b s
    have h : a + 1 + b = (a + b) + 1 := by omega
    rw [h]
    show stateAt r (a + b) (stepB r s) = stateAt r b (stateAt r a (stepB r s))
    exact ih b (stepB r s)

theorem stepB_fst (r b e : ℚ) :
    (stepB r (b, e)).1 = b - (if b < e - b * r then b else e - b * r) := by
  simp only [stepB]
  split <;> simp

theorem mkRow_principal (r : ℚ) (d : Date) (b e : ℚ) :
    (mkRow r d (b, e)).principal = (if b < e - b * r then b else e - b * r) / 100000 := by
  simp only [mkRow]

theorem amortLoop_principalSum (r : ℚ) : ∀ (k : Nat) (d : Date) (b e : ℚ),
    principalSum (amortLoop r k d b e) = (b - (stateAt r k (b, e)).1) / 100000 := by
  intro k
  induction k with
  | zero => intro d b e; simp [amortLoop, principalSum, stateAt]
  | succ k ih =>
    intro d b e
    rw [amortLoop_cons]
    have hs : stateAt r (k + 1) (b, e) = stateAt r k (stepB r (b, e)) := rfl
    have hrec := ih (addMonth d) (stepB r (b, e)).1 (stepB r (b, e)).2
    simp only [principalSum, List.map_cons, List.sum_cons, Prod.mk.eta] at hrec ⊢
    rw [hrec, hs, mkRow_principal, stepB_fst]
    ring

theorem amortLoop_getLast? (r : ℚ) (k : Nat) (d : Date) (b e : ℚ) (hk : 0 < k) :
    (amortLoop r k d b e).getLast? =
      some (mkRow r (dateAt d (k - 1)) (stateAt r (k - 1) (b, e))) := by
  have hlen : (amortLoop r k d b e).length = k := amortLoop_length r k d b e
  have hget := amortLoop_get? r k (k - 1) d b e (by omega)
  rw [List.getLast?_eq_get?, hlen, hget]

/-- State invariant along the loop: the balance stays nonnegative and the
installment is either the initial one or the balance has been extinguished. -/
def StInv (e0 : ℚ) (s : ℚ × ℚ) : Prop :=
  0 ≤ s.1 ∧ 0 ≤ s.2 ∧ (s.2 = e0 ∨ s.1 = 0)

theorem stepB_inv (r e0 : ℚ) (hr : 0 ≤ r) (s : ℚ × ℚ) (h : StInv e0 s) :
    StInv e0 (stepB r s) := by
  obtain ⟨hb, he, hor⟩ := h
  simp only [stepB, StInv]
  split
  · refine ⟨by simp, ?_, Or.inr (by simp)⟩
    simp only
    have h0 : 0 ≤ s.1 * r := mul_nonneg hb hr
    linarith
  · rename_i hnc
    push_neg at hnc
    refine ⟨by simp only; linarith, he, ?_⟩
    rcases hor with h1 | h1
    · exact Or.inl h1
    · right
      simp only
      rw [h1] at hnc
      simp only [zero_mul, sub_zero] at hnc
      have h2 : s.2 = 0 := le_antisymm hnc he
      rw [h1, h2]
      ring

theorem stateAt_inv (r e0 : ℚ) (hr : 0 ≤ r) : ∀ (k : Nat) (s : ℚ × ℚ),
    StInv e0 s → StInv e0 (stateAt r k s) := by
  intro k
  induction k with
  | zero => intro s h; exact h
  | succ k ih => intro s h; exact ih (stepB r s) (stepB_inv r e0 hr s h)

theorem stepB_zero (r e : ℚ) (he : 0 ≤ e) : stepB r (0, e) = (0, 0) := by
  simp only [stepB]
  split
  · simp
  · rename_i h
    simp only [zero_mul, sub_zero] at h ⊢
    push_neg at h
    have : e = 0 := le_antisymm h he
    simp [this]

theorem stateAt_zero (r : ℚ) : ∀ (k : Nat), stateAt r k (0, 0) = (0, 0) := by
  intro k
  induction k with
  | zero => rfl
  | succ k ih =>
    show stateAt r k (stepB r (0, 0)) = (0, 0)
    rw [stepB_zero r 0 le_rfl]
    exact ih

theorem mkRow_zero (r : ℚ) (d : Date) (e : ℚ) (he : 0 ≤ e) :
    (mkRow r d (0, e)).interest = 0 ∧ (mkRow r d (0, e)).principal = 0 ∧
    (mkRow r d (0, e)).payment = 0 ∧ (mkRow r d (0, e)).balance = 0 := by
  simp only [mkRow, zero_mul, sub_zero]
  split
  · simp
  · rename_i h
    push_neg at h
    have : e = 0 := le_antisymm h he
    simp [this]

/-- Ideal balance after `j` of `n` periods under the level installment. -/
def closedBal (A r : ℚ) (n j : Nat) : ℚ :=
  A * ((1 + r) ^ n - (1 + r) ^ j) / ((1 + r) ^ n - 1)

theorem denom_pos (r : ℚ) (n : Nat) (hr : 0 < r) (hn : n ≠ 0) :
    0 < (1 + r) ^ n - 1 := by
  have h1 : (1 : ℚ) < 1 + r := by linarith
  have := one_lt_pow h1 hn
  linarith

theorem closedBal_zero (A r : ℚ) (n : Nat) (hD : (1 + r) ^ n - 1 ≠ 0) :
    closedBal A r n 0 = A := by
  simp only [closedBal, pow_zero]
  field_simp

theorem closedBal_last (A r : ℚ) (n : Nat) : closedBal A r n n = 0 := by
  simp [closedBal]

theorem closedBal_nonneg (A r : ℚ) (n j : Nat) (hA : 0 ≤ A) (hr : 0 < r)
    (hn : n ≠ 0) (hj : j ≤ n) : 0 ≤ closedBal A r n j := by
  have h1 : (1 : ℚ) ≤ 1 + r := by linarith
  have h2 : (1 + r) ^ j ≤ (1 + r) ^ n := pow_le_pow_right h1 hj
  have hD := denom_pos r n hr hn
  exact div_nonneg (mul_nonneg hA (by linarith)) (by linarith)

theorem closedBal_step (A r : ℚ) (n j : Nat) (hr : 0 < r) (hn : n ≠ 0) :
    closedBal A r n j - (emiFormula A r n - closedBal A r n j * r) =
      closedBal A r n (j + 1) := by
  have hD : (1 + r) ^ n - 1 ≠ 0 := ne_of_gt (denom_pos r n hr hn)
  simp only [closedBal, emiFormula]
  field_simp
  ring

theorem stepB_closed (A r : ℚ) (n j : Nat) (hA : 0 ≤ A) (hr : 0 < r)
    (hj : j < n) :
    stepB r (closedBal A r n j, emiFormula A r n) =
      (closedBal A r n (j + 1), emiFormula A r n) := by
  have hn : n ≠ 0 := by omega
  have hstep := closedBal_step A r n j hr hn
  have hnext : 0 ≤ closedBal A r n (j + 1) :=
    closedBal_nonneg A r n (j + 1) hA hr hn (by omega)
  simp only [stepB]
  rw [if_neg]
  · rw [hstep]
  · intro hlt
    have : closedBal A r n j - (emiFormula A r n - closedBal A r n j * r) < 0 := by
      linarith
    rw [hstep] at this
    linarith

theorem stateAt_closed (A r : ℚ) (n : Nat) (hA : 0 ≤ A) (hr : 0 < r) :
    ∀ (k j : Nat), j + k ≤ n →
      stateAt r k (closedBal A r n j, emiFormula A r n) =
        (closedBal A r n (j + k), emiFormula A r n) := by
  intro k
  induction k with
  | zero => intro j h; rfl
  | succ k ih =>
    intro j h
    show stateAt r k (stepB r (closedBal A r n j, emiFormula A r n)) = _
    rw [stepB_closed A r n j hA hr (by omega)]
    have h2 : j + (k + 1) = (j + 1) + k := by omega
    rw [h2]
    exact ih (j + 1) (by omega)

theorem emiFormula_pos (A r : ℚ) (n : Nat) (hA : 0 < A) (hr : 0 < r)
    (hn : n ≠ 0) : 0 < emiFormula A r n := by
  have hD := denom_pos r n hr hn
  have hp : (0 : ℚ) < (1 + r) ^ n := pow_pos (by linarith) n
  exact div_pos (mul_pos hA (mul_pos hr hp)) hD

/-- Unfolding of `calculate_amortization` on valid inputs. -/
theorem calculate_amortization_valid (P r : ℚ) (n : Int) (d : Date)
    (pay : Option ℚ) (hP : 0 < P) (hr : 0 < r) (h50 : r < 50) (hn : 0 < n) :
    calculate_amortization P r n d pay =
      .ok (amortLoop (r / 100 / 12) n.toNat d (P * 100000)
        (match pay with
         | none => emiFormula (P * 100000) (r / 100 / 12) n.toNat
         | some p =>
           if p = 0 then emiFormula (P * 100000) (r / 100 / 12) n.toNat
           else p * 100000)) := by
  simp only [calculate_amortization]
  rw [if_neg]
  push_neg
  exact ⟨by linarith, by linarith, by linarith, by omega⟩

theorem mkRow_balance (r : ℚ) (d : Date) (b e : ℚ) :
    (mkRow r d (b, e)).balance = (stepB r (b, e)).1 / 100000 := by
  rw [stepB_fst]
  rfl

theorem stateAt_succ (r : ℚ) (m : Nat) (s : ℚ × ℚ) :
    stateAt r (m + 1) s = stepB r (stateAt r m s) := by
  have h := stateAt_add r m 1 s
  simpa [stateAt] using h

theorem lastBalance_amortLoop (r : ℚ) (k : Nat) (d : Date) (b e : ℚ)
    (hk : 0 < k) :
    lastBalance (amortLoop r k d b e) = (stateAt r k (b, e)).1 / 100000 := by
  obtain ⟨m, rfl⟩ : ∃ m, k = m + 1 := ⟨k - 1, by omega⟩
  rw [lastBalance, amortLoop_getLast? r (m + 1) d b e hk]
  simp only [Option.map_some', Option.getD_some, Nat.add_sub_cancel]
  rw [mkRow_balance, ← stateAt_succ]

/-- The concrete negative-amortization schedule refuting C1 as stated:
principal 1 lakh, 12% annual rate, 2 months, fixed payment 0.001 lakhs. -/
def negAmSched : List Row :=
  [{ date := { year := 2022, month := 1, day := 1 }, fy := 2021,
     principal := -9/1000, interest := 1/100, payment := 1/1000,
     balance := 1009/1000 },
   { date := { year := 2022, month := 2, day := 1 }, fy := 2021,
     principal := -909/100000, interest := 1009/100000, payment := 1/1000,
     balance := 101809/100000 }]

/-- C1 fails as stated: the input (principal 1, rate 12, term 2, fixed
payment 0.001) satisfies every generator precondition and is accepted, yet
the principal components sum to -0.01809 ≠ 1 and the final closing balance
is 1.01809 ≠ 0, far outside epsilon 1e-6. -/
theorem c1_counterexample :
    calculate_amortization 1 12 2 { year := 2022, month := 1, day := 1 }
        (some (1/1000)) = .ok negAmSched ∧
    ¬ |principalSum negAmSched - 1| ≤ 1/1000000 ∧
    ¬ |lastBalance negAmSched| ≤ 1/1000000 := by
  refine ⟨?_, ?_, ?_⟩
  · norm_num [calculate_amortization, amortLoop, addMonth, daysInMonth, isLeap,
      get_financial_year, negAmSched]
  · simp only [principalSum, negAmSched, List.map_cons, List.map_nil,
      List.sum_cons, List.sum_nil]
    rw [abs_le]
    norm_num
  · simp only [lastBalance, negAmSched, List.getLast?]
    rw [abs_le]
    norm_num

/-- C1 (amended): for every accepted loan input, the sum of the recorded
principal components equals the original principal minus the final closing
balance (so the two spec conditions are equivalent); when the installment is
auto-computed (no fixed payment supplied), the final closing balance is
exactly 0 and the principal components sum exactly to the principal. -/
theorem c1_principal_sum_amended (P r : ℚ) (n : Int) (d : Date)
    (hP : 0 < P) (hr : 0 < r) (h50 : r < 50) (hn : 0 < n) :
    (∀ (pay : Option ℚ) (sched : List Row),
        calculate_amortization P r n d pay = .ok sched →
        principalSum sched = P - lastBalance sched) ∧
    (∀ sched : List Row,
        calculate_amortization P r n d none = .ok sched →
        principalSum sched = P ∧ lastBalance sched = 0) := by
  have hk : 0 < n.toNat := by omega
  have hr2 : (0 : ℚ) < r / 100 / 12 := by positivity
  constructor
  · intro pay sched hok
    rw [calculate_amortization_valid P r n d pay hP hr h50 hn] at hok
    injection hok with hok
    subst hok
    rw [amortLoop_principalSum, lastBalance_amortLoop _ _ _ _ _ hk]
    field_simp
  · intro sched hok
    rw [calculate_amortization_valid P r n d none hP hr h50 hn] at hok
    injection hok with hok
    subst hok
    have hA : (0 : ℚ) < P * 100000 := by positivity
    have hD : ((1 + r / 100 / 12) ^ n.toNat - 1) ≠ 0 :=
      ne_of_gt (denom_pos _ _ hr2 (by omega))
    have hclose := stateAt_closed (P * 100000) (r / 100 / 12) n.toNat
      (le_of_lt hA) hr2 n.toNat 0 (by omega)
    rw [closedBal_zero _ _ _ hD] at hclose
    have hfin : (stateAt (r / 100 / 12) n.toNat
        (P * 100000, emiFormula (P * 100000) (r / 100 / 12) n.toNat)).1 = 0 := by
      rw [hclose]
      simp [closedBal_last]
    rw [amortLoop_principalSum, lastBalance_amortLoop _ _ _ _ _ hk]
    rw [hfin]
    norm_num

/-- Witness for the amended C1 at a concrete valid input. -/
theorem c1_witness :
    (∀ (pay : Option ℚ) (sched : List Row),
        calculate_amortization 15 12 36 { year := 2022, month := 2, day := 22 }
            pay = .ok sched →
        principalSum sched = 15 - lastBalance sched) ∧
    (∀ sched : List Row,
        calculate_amortization 15 12 36 { year := 2022, month := 2, day := 22 }
            none = .ok sched →
        principalSum sched = 15 ∧ lastBalance sched = 0) :=
  c1_principal_sum_amended 15 12 36 { year := 2022, month := 2, day := 22 }
    (by norm_num) (by norm_num) (by norm_num) (by norm_num)

/-- C4: `calculate_amortization` rejects an input with the `ValueError` of
src line 48 exactly when principal ≤ 0, rate ≤ 0, rate ≥ 50 or term ≤ 0, and
returns a schedule on every other input. -/
theorem c4_invalid_input_iff (P r : ℚ) (n : Int) (d : Date) (pay : Option ℚ) :
    ((∃ msg, calculate_amortization P r n d pay = .error msg) ↔
      P ≤ 0 ∨ r ≤ 0 ∨ 50 ≤ r ∨ n ≤ 0) ∧
    (¬ (P ≤ 0 ∨ r ≤ 0 ∨ 50 ≤ r ∨ n ≤ 0) →
      ∃ sched, calculate_amortization P r n d pay = .ok sched) := by
  by_cases h : P ≤ 0 ∨ r ≤ 0 ∨ 50 ≤ r ∨ n ≤ 0
  · refine ⟨⟨fun _ => h, fun _ => ?_⟩, fun hc => absurd h hc⟩
    simp only [calculate_amortization, if_pos h]
    exact ⟨_, rfl⟩
  · constructor
    · constructor
      · rintro ⟨msg, hmsg⟩
        simp only [calculate_amortization, if_neg h] at hmsg
        exact Except.noConfusion hmsg
      · intro hc
        exact absurd hc h
    · intro _
      push_neg at h
      obtain ⟨h1, h2, h3, h4⟩ := h
      exact ⟨_, calculate_amortization_valid P r n d pay h1 h2 h3 h4⟩

/-- Witness for C4: the template loan is accepted. -/
theorem c4_witness :
    ∃ sched, calculate_amortization 15 12 36 { year := 2022, month := 2, day := 22 }
      none = .ok sched :=
  (c4_invalid_input_iff 15 12 36 { year := 2022, month := 2, day := 22 } none).2
    (by norm_num)

/-- C5: `get_financial_year` returns the calendar year for months April (4)
and later and the previous calendar year for January through March; hence
any March date belongs to the fiscal year begun the previous April and any
April date to the fiscal year beginning that April. -/
theorem c5_financial_year_rule (d : Date) :
    (4 ≤ d.month → get_financial_year d = d.year) ∧
    (d.month < 4 → get_financial_year d = d.year - 1) ∧
    (∀ day : Nat,
      get_financial_year { year := d.year, month := 3, day := day } = d.year - 1) ∧
    (∀ day : Nat,
      get_financial_year { year := d.year, month := 4, day := day } = d.year) := by
  refine ⟨fun h => ?_, fun h => ?_, fun day => ?_, fun day => ?_⟩
  · simp [get_financial_year, h]
  · simp [get_financial_year]
    omega
  · simp [get_financial_year]
  · simp [get_financial_year]

/-- Witness for C5 on concrete March 31 and April 1 dates. -/
theorem c5_witness :
    get_financial_year { year := 2024, month := 3, day := 31 } = 2023 ∧
    get_financial_year { year := 2024, month := 4, day := 1 } = 2024 := by
  have h1 := (c5_financial_year_rule { year := (2024 : Int), month := 3, day := 31 }).2.2.1 31
  have h2 := (c5_financial_year_rule { year := (2024 : Int), month := 3, day := 31 }).2.2.2 1
  norm_num at h1 h2
  exact ⟨h1, h2⟩

theorem mkRow_interest (r : ℚ) (d : Date) (s : ℚ × ℚ) :
    (mkRow r d s).interest = s.1 * r / 100000 := rfl

theorem mkRow_principal_s (r : ℚ) (d : Date) (s : ℚ × ℚ) :
    (mkRow r d s).principal =
      (if s.1 < s.2 - s.1 * r then s.1 else s.2 - s.1 * r) / 100000 := rfl

theorem stepB_fst_s (r : ℚ) (s : ℚ × ℚ) :
    (stepB r s).1 = s.1 - (if s.1 < s.2 - s.1 * r then s.1 else s.2 - s.1 * r) := by
  simp only [stepB]
  split <;> simp

theorem mkRow_balance_s (r : ℚ) (d : Date) (s : ℚ × ℚ) :
    (mkRow r d s).balance = (stepB r s).1 / 100000 := by
  rw [stepB_fst_s]
  rfl

theorem amortLoop_index_lt (r : ℚ) (k : Nat) (d : Date) (b e : ℚ) (i : Nat)
    (row : Row) (hrow : (amortLoop r k d b e).get? i = some row) : i < k := by
  by_contra hc
  push_neg at hc
  have hnone : (amortLoop r k d b e).get? i = none :=
    List.get?_eq_none.mpr (by rw [amortLoop_length]; exact hc)
  rw [hnone] at hrow
  cases hrow

theorem opening_amortLoop (r : ℚ) (k : Nat) (d : Date) (P e : ℚ) (i : Nat)
    (hik : i < k) :
    opening P (amortLoop r k d (P * 100000) e) i =
      (stateAt r i (P * 100000, e)).1 / 100000 := by
  cases i with
  | zero =>
    show P = (P * 100000) / 100000
    rw [mul_div_assoc]
    norm_num
  | succ j =>
    show (((amortLoop r k d (P * 100000) e).get? j).map Row.balance).getD 0 = _
    rw [amortLoop_get? r k j d _ e (by omega)]
    simp only [Option.map_some', Option.getD_some]
    rw [mkRow_balance_s, ← stateAt_succ]

theorem amortLoop_interest_opening (r : ℚ) (k : Nat) (d : Date) (P e : ℚ)
    (i : Nat) (row : Row)
    (hrow : (amortLoop r k d (P * 100000) e).get? i = some row) :
    row.interest = opening P (amortLoop r k d (P * 100000) e) i * r := by
  have hik : i < k := amortLoop_index_lt r k d _ e i row hrow
  rw [amortLoop_get? r k i d _ e hik] at hrow
  injection hrow with hrow
  subst hrow
  rw [mkRow_interest, opening_amortLoop r k d P e i hik]
  ring

/-- C8: in every schedule returned by `calculate_amortization`, each
period's recorded interest component equals its opening balance (the
original principal for period 1, the previous period's closing balance
otherwise) multiplied by the monthly rate `annual_rate/100/12`. -/
theorem c8_interest_component (P r : ℚ) (n : Int) (d : Date) (pay : Option ℚ)
    (hP : 0 < P) (hr : 0 < r) (h50 : r < 50) (hn : 0 < n) :
    ∃ sched, calculate_amortization P r n d pay = .ok sched ∧
      ∀ (i : Nat) (row : Row), sched.get? i = some row →
        row.interest = opening P sched i * (r / 100 / 12) := by
  rw [calculate_amortization_valid P r n d pay hP hr h50 hn]
  refine ⟨_, rfl, ?_⟩
  intro i row hrow
  exact amortLoop_interest_opening (r / 100 / 12) n.toNat d P _ i row hrow

/-- Witness for C8 at the template loan input. -/
theorem c8_witness :
    ∃ sched, calculate_amortization 15 12 36 { year := 2022, month := 2, day := 22 }
        none = .ok sched ∧
      ∀ (i : Nat) (row : Row), sched.get? i = some row →
        row.interest = opening 15 sched i * (12 / 100 / 12) :=
  c8_interest_component 15 12 36 { year := 2022, month := 2, day := 22 } none
    (by norm_num) (by norm_num) (by norm_num) (by norm_num)

/-- C3: a positive fixed payment below a period's accruing interest is
accepted (no error), that period's principal component is recorded as
payment minus interest, a negative number, and the closing balance strictly
exceeds the opening balance. -/
theorem c3_negative_amortization (P r p : ℚ) (n : Int) (d : Date)
    (hP : 0 < P) (hr : 0 < r) (h50 : r < 50) (hn : 0 < n) (hp : 0 < p) :
    ∃ sched, calculate_amortization P r n d (some p) = .ok sched ∧
      ∀ (i : Nat) (row : Row), sched.get? i = some row → p < row.interest →
        row.principal = p - row.interest ∧ row.principal < 0 ∧
        opening P sched i < row.balance := by
  have hr2 : (0 : ℚ) < r / 100 / 12 := by positivity
  have hA : (0 : ℚ) < P * 100000 := by positivity
  have hp0 : p ≠ 0 := ne_of_gt hp
  rw [calculate_amortization_valid P r n d (some p) hP hr h50 hn]
  have hemi : (match some p with
      | none => emiFormula (P * 100000) (r / 100 / 12) n.toNat
      | some q =>
        if q = 0 then emiFormula (P * 100000) (r / 100 / 12) n.toNat
        else q * 100000) = p * 100000 := by
    simp [hp0]
  rw [hemi]
  refine ⟨_, rfl, ?_⟩
  intro i row hrow hint
  have hik : i < n.toNat := amortLoop_index_lt _ n.toNat d _ _ i row hrow
  rw [amortLoop_get? _ n.toNat i d _ _ hik] at hrow
  injection hrow with hrow
  subst hrow
  have hinv := stateAt_inv (r / 100 / 12) (p * 100000) (le_of_lt hr2) i
    (P * 100000, p * 100000) ⟨le_of_lt hA, by positivity, Or.inl rfl⟩
  set s := stateAt (r / 100 / 12) i (P * 100000, p * 100000) with hs
  obtain ⟨hb0, hbe, hor⟩ := hinv
  rw [mkRow_interest] at hint
  have hs1pos : 0 < s.1 := by
    rcases lt_or_eq_of_le hb0 with h | h
    · exact h
    · rw [← h] at hint
      simp at hint
      linarith
  have he2 : s.2 = p * 100000 := by
    rcases hor with h | h
    · exact h
    · exact absurd h (ne_of_gt hs1pos)
  have hbig : p * 100000 < s.1 * (r / 100 / 12) := by
    have h1 := mul_lt_mul_of_pos_right hint (by norm_num : (0 : ℚ) < 100000)
    calc p * 100000 < s.1 * (r / 100 / 12) / 100000 * 100000 := h1
    _ = s.1 * (r / 100 / 12) := by field_simp; ring
  have hneg : s.2 - s.1 * (r / 100 / 12) < 0 := by
    rw [he2]
    linarith
  have hnc : ¬ (s.1 < s.2 - s.1 * (r / 100 / 12)) := by
    intro hcl
    linarith
  refine ⟨?_, ?_, ?_⟩
  · rw [mkRow_principal_s, mkRow_interest, if_neg hnc, he2]
    ring
  · rw [mkRow_principal_s, if_neg hnc]
    exact div_neg_of_neg_of_pos hneg (by norm_num)
  · rw [opening_amortLoop _ n.toNat d P _ i hik, ← hs,
      mkRow_balance_s, stepB_fst_s, if_neg hnc]
    have h100 : (0 : ℚ) < 100000 := by norm_num
    rw [div_lt_div_iff h100 h100]
    nlinarith [hneg]

/-- Witness for C3: 0.001 lakhs payment against 1 lakh at 12% for 1 month. -/
theorem c3_witness :
    ∃ sched, calculate_amortization 1 12 1 { year := 2022, month := 1, day := 1 }
        (some (1/1000)) = .ok sched ∧
      ∀ (i : Nat) (row : Row), sched.get? i = some row → 1/1000 < row.interest →
        row.principal = 1/1000 - row.interest ∧ row.principal < 0 ∧
        opening 1 sched i < row.balance :=
  c3_negative_amortization 1 12 (1/1000) 1 { year := 2022, month := 1, day := 1 }
    (by norm_num) (by norm_num) (by norm_num) (by norm_num) (by norm_num)

theorem stateAt_zero_balance (r e : ℚ) (he : 0 ≤ e) : ∀ m : Nat,
    (stateAt r m (0, e)).1 = 0 ∧ 0 ≤ (stateAt r m (0, e)).2 := by
  intro m
  cases m with
  | zero => exact ⟨rfl, he⟩
  | succ m =>
    show (stateAt r m (stepB r (0, e))).1 = 0 ∧ 0 ≤ (stateAt r m (stepB r (0, e))).2
    rw [stepB_zero r e he, stateAt_zero]
    exact ⟨rfl, le_refl 0⟩

theorem mkRow_zero_s (r : ℚ) (d : Date) (s : ℚ × ℚ) (h1 : s.1 = 0)
    (h2 : 0 ≤ s.2) :
    (mkRow r d s).interest = 0 ∧ (mkRow r d s).principal = 0 ∧
    (mkRow r d s).payment = 0 ∧ (mkRow r d s).balance = 0 := by
  have hs : s = (0, s.2) := by rw [Prod.ext_iff]; exact ⟨h1, rfl⟩
  rw [hs]
  exact mkRow_zero r d s.2 h2

theorem amortLoop_zero_tail (r : ℚ) (k : Nat) (d : Date) (A e : ℚ)
    (hr : 0 ≤ r) (hA : 0 ≤ A) (he : 0 ≤ e) (i j : Nat) (rowi rowj : Row)
    (hi : (amortLoop r k d A e).get? i = some rowi)
    (hbal : rowi.balance = 0) (hij : i < j)
    (hj : (amortLoop r k d A e).get? j = some rowj) :
    rowj.interest = 0 ∧ rowj.principal = 0 ∧ rowj.payment = 0 ∧
    rowj.balance = 0 := by
  have hik : i < k := amortLoop_index_lt r k d A e i rowi hi
  have hjk : j < k := amortLoop_index_lt r k d A e j rowj hj
  rw [amortLoop_get? r k i d A e hik] at hi
  injection hi with hi
  subst hi
  rw [amortLoop_get? r k j d A e hjk] at hj
  injection hj with hj
  subst hj
  rw [mkRow_balance_s, ← stateAt_succ] at hbal
  have hfin : (stateAt r (i + 1) (A, e)).1 = 0 := by
    rcases div_eq_zero_iff.mp hbal with h | h
    · exact h
    · norm_num at h
  have hinv := stateAt_inv r e hr (i + 1) (A, e) ⟨hA, he, Or.inl rfl⟩
  obtain ⟨-, ht2, -⟩ := hinv
  have hsplit : stateAt r j (A, e) =
      stateAt r (j - (i + 1)) (stateAt r (i + 1) (A, e)) := by
    rw [← stateAt_add]
    congr 1
    omega
  have ht : stateAt r (i + 1) (A, e) = (0, (stateAt r (i + 1) (A, e)).2) := by
    rw [Prod.ext_iff]
    exact ⟨hfin, rfl⟩
  rw [ht] at hsplit
  have hz := stateAt_zero_balance r ((stateAt r (i + 1) (A, e)).2) ht2 (j - (i + 1))
  exact mkRow_zero_s r (dateAt d j) _ (by rw [hsplit]; exact hz.1)
    (by rw [hsplit]; exact hz.2)

/-- C10: `calculate_amortization` always returns exactly `term_months` rows;
once some period's closing balance reaches 0, every later period is still
emitted as a row whose interest, principal, payment and closing balance are
all 0. -/
theorem c10_row_count_zero_tail (P r : ℚ) (n : Int) (d : Date) (pay : Option ℚ)
    (hP : 0 < P) (hr : 0 < r) (h50 : r < 50) (hn : 0 < n)
    (hpay : ∀ q, pay = some q → 0 ≤ q) :
    ∃ sched, calculate_amortization P r n d pay = .ok sched ∧
      (sched.length : Int) = n ∧
      ∀ (i j : Nat) (rowi rowj : Row), sched.get? i = some rowi →
        rowi.balance = 0 → i < j → sched.get? j = some rowj →
        rowj.interest = 0 ∧ rowj.principal = 0 ∧ rowj.payment = 0 ∧
        rowj.balance = 0 := by
  have hr2 : (0 : ℚ) < r / 100 / 12 := by positivity
  have hA : (0 : ℚ) < P * 100000 := by positivity
  have he0 : 0 ≤ (match pay with
      | none => emiFormula (P * 100000) (r / 100 / 12) n.toNat
      | some q =>
        if q = 0 then emiFormula (P * 100000) (r / 100 / 12) n.toNat
        else q * 100000) := by
    rcases pay with _ | q
    · exact le_of_lt (emiFormula_pos _ _ _ hA hr2 (by omega))
    · show 0 ≤ if q = 0 then emiFormula (P * 100000) (r / 100 / 12) n.toNat
          else q * 100000
      split
      · exact le_of_lt (emiFormula_pos _ _ _ hA hr2 (by omega))
      · have hq := hpay q rfl
        positivity
  rw [calculate_amortization_valid P r n d pay hP hr h50 hn]
  refine ⟨_, rfl, ?_, ?_⟩
  · rw [amortLoop_length]
    omega
  · intro i j rowi rowj hi hbal hij hj
    exact amortLoop_zero_tail (r / 100 / 12) n.toNat d (P * 100000) _
      (le_of_lt hr2) (le_of_lt hA) he0 i j rowi rowj hi hbal hij hj

/-- Witness for C10: a large fixed payment that clears the loan early. -/
theorem c10_witness :
    ∃ sched, calculate_amortization 1 12 3 { year := 2022, month := 1, day := 1 }
        (some 2) = .ok sched ∧
      (sched.length : Int) = 3 ∧
      ∀ (i j : Nat) (rowi rowj : Row), sched.get? i = some rowi →
        rowi.balance = 0 → i < j → sched.get? j = some rowj →
        rowj.interest = 0 ∧ rowj.principal = 0 ∧ rowj.payment = 0 ∧
        rowj.balance = 0 :=
  c10_row_count_zero_tail 1 12 3 { year := 2022, month := 1, day := 1 } (some 2)
    (by norm_num) (by norm_num) (by norm_num) (by norm_num)
    (by intro q hq; injection hq with hq; rw [← hq]; norm_num)

theorem daysInMonth_ge (y : Int) (m : Nat) : 28 ≤ daysInMonth y m := by
  unfold daysInMonth
  split
  · split <;> norm_num
  · split <;> norm_num

/-- C9: schedule dates are stored as `dd/mm/yyyy` and re-read through
`parse_date`, which tries `mm/dd/yyyy` first; the round trip is the identity
exactly when the day exceeds 12 or equals the month, and otherwise returns
the date with day and month swapped — the date the fiscal bucketing uses. -/
theorem c9_parse_date_roundtrip (d : Date)
    (hm1 : 1 ≤ d.month) (hm2 : d.month ≤ 12)
    (hd1 : 1 ≤ d.day) (hd2 : d.day ≤ daysInMonth d.year d.month) :
    (reparse d = d ↔ (12 < d.day ∨ d.day = d.month)) ∧
    (d.day ≤ 12 → d.day ≠ d.month →
      reparse d = { year := d.year, month := d.day, day := d.month }) := by
  have hge := daysInMonth_ge d.year d.day
  by_cases hle : d.day ≤ 12
  · have hcond : 1 ≤ d.day ∧ d.day ≤ 12 ∧ 1 ≤ d.month ∧
        d.month ≤ daysInMonth d.year d.day := ⟨hd1, hle, hm1, by omega⟩
    have hrp : reparse d = { year := d.year, month := d.day, day := d.month } := by
      simp only [reparse, parse_date]
      rw [if_pos hcond]
      rfl
    constructor
    · rw [hrp]
      constructor
      · intro h
        right
        exact congrArg Date.month h
      · rintro (h | h)
        · omega
        · obtain ⟨y, m, dd⟩ := d
          simp only at h
          rw [h]
      
    · intro _ _
      exact hrp
  · push_neg at hle
    have hc1 : ¬ (1 ≤ d.day ∧ d.day ≤ 12 ∧ 1 ≤ d.month ∧
        d.month ≤ daysInMonth d.year d.day) := by
      rintro ⟨-, h, -, -⟩
      omega
    have hc2 : 1 ≤ d.month ∧ d.month ≤ 12 ∧ 1 ≤ d.day ∧
        d.day ≤ daysInMonth d.year d.month := ⟨hm1, hm2, hd1, hd2⟩
    have hrp : reparse d = d := by
      simp only [reparse, parse_date]
      rw [if_neg hc1, if_pos hc2]
      rfl
    refine ⟨⟨fun _ => Or.inl hle, fun _ => hrp⟩, fun h _ => by omega⟩

/-- Witness for C9: 3 May 2024 round-trips to 5 March 2024 (swapped), and
the characterisation confirms the swap condition. -/
theorem c9_witness :
    (reparse { year := 2024, month := 5, day := 3 } =
        { year := 2024, month := 5, day := 3 } ↔
      (12 < 3 ∨ 3 = 5)) ∧
    (3 ≤ 12 → 3 ≠ 5 →
      reparse { year := 2024, month := 5, day := 3 } =
        { year := 2024, month := 3, day := 5 }) :=
  c9_parse_date_roundtrip { year := 2024, month := 5, day := 3 }
    (by norm_num) (by norm_num) (by norm_num) (by decide)

theorem getLast?_filter_eq_find?_reverse {α : Type} (p : α → Bool) :
    ∀ l : List α, (l.filter p).getLast? = l.reverse.find? p := by
  intro l
  induction l using List.reverseRecOn with
  | nil => rfl
  | append_singleton xs x ih =>
    rw [List.filter_append, List.reverse_append]
    cases hx : p x with
    | true => simp [hx, List.getLast?_concat]
    | false => simp [hx, ih]

theorem outstandingFor_eq_spec (loanAmt : ℚ) (s : List Row) (year : Int) :
    outstandingFor loanAmt s year = outstandingSpec loanAmt s year := by
  cases s with
  | nil => rfl
  | cons h t =>
    simp only [outstandingFor, outstandingSpec, List.head?_cons]
    split
    · rfl
    · rw [getLast?_filter_eq_find?_reverse]

/-- C6: for every fiscal year enumerated by `calculate_annual_metrics`, the
recorded outstanding value is: the full original principal when the (first
row of the) schedule starts after March 31 of `year+1`, else the closing
balance of the last schedule row dated on or before that fiscal year end,
else 0 when no row qualifies. -/
theorem c6_outstanding_rule (sched : List Row) (sr name : String) (loanAmt : ℚ) :
    (calculate_annual_metrics sched sr name loanAmt).outstandingP.vals =
      (yearsOf (annualSchedule sched)).map
        (fun y => ("Outstanding " ++ format_fy y,
          outstandingSpec loanAmt (annualSchedule sched) y)) := by
  simp only [calculate_annual_metrics]
  apply List.map_congr_left
  intro y _
  rw [outstandingFor_eq_spec]

theorem foldl_min_sorted (h : Date) : ∀ t : List Date,
    (∀ x ∈ t, h.key ≤ x.key) →
    t.foldl (fun a b => if b.key < a.key then b else a) h = h := by
  intro t
  induction t generalizing h with
  | nil => intro _; rfl
  | cons x xs ih =>
    intro hall
    simp only [List.foldl_cons]
    rw [if_neg]
    · exact ih h (fun y hy => hall y (List.mem_cons_of_mem x hy))
    · have := hall x (List.mem_cons_self x xs)
      omega

theorem le_foldl_max : ∀ (t : List Int) (h : Int), h ≤ t.foldl max h := by
  intro t
  induction t with
  | nil => intro h; exact le_refl h
  | cons x xs ih =>
    intro h
    exact le_trans (le_max_left h x) (ih (max h x))

theorem mem_le_foldl_max : ∀ (t : List Int) (h x : Int), x ∈ t → x ≤ t.foldl max h := by
  intro t
  induction t with
  | nil => intro h x hx; cases hx
  | cons y ys ih =>
    intro h x hx
    rcases List.mem_cons.mp hx with rfl | hx
    · exact le_trans (le_max_right h x) (le_foldl_max ys (max h x))
    · exact ih (max h y) x hx

theorem foldl_max_mem : ∀ (t : List Int) (h : Int),
    t.foldl max h = h ∨ t.foldl max h ∈ t := by
  intro t
  induction t with
  | nil => intro h; exact Or.inl rfl
  | cons y ys ih =>
    intro h
    simp only [List.foldl_cons]
    rcases ih (max h y) with heq | hmem
    · by_cases hy : h ≤ y
      · right
        rw [heq, max_eq_right hy]
        exact List.mem_cons_self y ys
      · left
        rw [heq, max_eq_left (le_of_not_le hy)]
    · right
      exact List.mem_cons_of_mem y hmem

theorem maxFyOf_spec (s : List Row) (hs : s ≠ []) :
    (∀ row ∈ s, row.fy ≤ maxFyOf s) ∧ maxFyOf s ∈ s.map Row.fy := by
  cases s with
  | nil => exact absurd rfl hs
  | cons a t =>
    unfold maxFyOf
    simp only [List.map_cons]
    constructor
    · intro row hrow
      rcases List.mem_cons.mp hrow with rfl | hrow
      · exact le_foldl_max _ _
      · exact mem_le_foldl_max _ _ _ (List.mem_map_of_mem Row.fy hrow)
    · rcases foldl_max_mem (t.map Row.fy) a.fy with heq | hmem
      · rw [heq]
        exact List.mem_cons_self _ _
      · exact List.mem_cons_of_mem _ hmem

theorem mem_intRange (a b y : Int) : y ∈ intRange a b ↔ a ≤ y ∧ y < b := by
  simp only [intRange, List.mem_map, List.mem_range]
  constructor
  · rintro ⟨i, hi, rfl⟩
    omega
  · rintro ⟨h1, h2⟩
    exact ⟨(y - a).toNat, by omega, by omega⟩

/-- C7: the fiscal years enumerated by `calculate_annual_metrics` are exactly
the integer range `[minYear, min(lastFY + 1, minYear + 20))` where `minYear`
is the fiscal year of the first (earliest) schedule row and `lastFY` the
largest fiscal year appearing in the schedule. -/
theorem c7_year_span (sched : List Row) (sr name : String) (loanAmt : ℚ)
    (first : Row) (rest : List Row)
    (hs : annualSchedule sched = first :: rest)
    (hsort : (annualSchedule sched).Pairwise (fun a b => a.date.key ≤ b.date.key)) :
    (calculate_annual_metrics sched sr name loanAmt).years =
      intRange (get_financial_year first.date)
        (min (maxFyOf (annualSchedule sched) + 1)
          (get_financial_year first.date + 20)) ∧
    (∀ y : Int, y ∈ (calculate_annual_metrics sched sr name loanAmt).years ↔
      get_financial_year first.date ≤ y ∧
        y < min (maxFyOf (annualSchedule sched) + 1)
          (get_financial_year first.date + 20)) ∧
    (∀ row ∈ annualSchedule sched, row.fy ≤ maxFyOf (annualSchedule sched)) ∧
    maxFyOf (annualSchedule sched) ∈ (annualSchedule sched).map Row.fy := by
  have hne : annualSchedule sched ≠ [] := by
    rw [hs]
    exact List.cons_ne_nil _ _
  have hmin : minYearOf (annualSchedule sched) = get_financial_year first.date := by
    unfold minYearOf
    rw [hs]
    simp only [List.map_cons, minDateList]
    rw [foldl_min_sorted]
    intro x hx
    rw [hs] at hsort
    obtain ⟨hfirst, -⟩ := List.pairwise_cons.mp hsort
    obtain ⟨row, hrow, rfl⟩ := List.mem_map.mp hx
    exact hfirst row hrow
  have hyears : (calculate_annual_metrics sched sr name loanAmt).years =
      yearsOf (annualSchedule sched) := rfl
  refine ⟨?_, ?_, (maxFyOf_spec _ hne).1, (maxFyOf_spec _ hne).2⟩
  · rw [hyears]
    unfold yearsOf maxYearOf
    rw [hmin]
  · intro y
    rw [hyears]
    unfold yearsOf maxYearOf
    rw [hmin, mem_intRange]

/-- Witness for C7 on a one-row schedule whose date is reparse-stable. -/
theorem c7_witness :
    (calculate_annual_metrics
        [{ date := { year := 2022, month := 4, day := 15 }, fy := 2022,
           principal := 0, interest := 0, payment := 0, balance := 0 }]
        "1" "A" 1).years =
      intRange
        (get_financial_year { year := (2022 : Int), month := 4, day := 15 })
        (min (maxFyOf (annualSchedule
          [{ date := { year := 2022, month := 4, day := 15 }, fy := 2022,
             principal := 0, interest := 0, payment := 0, balance := 0 }]) + 1)
          (get_financial_year { year := (2022 : Int), month := 4, day := 15 } + 20)) ∧
    (∀ y : Int, y ∈ (calculate_annual_metrics
        [{ date := { year := 2022, month := 4, day := 15 }, fy := 2022,
           principal := 0, interest := 0, payment := 0, balance := 0 }]
        "1" "A" 1).years ↔
      get_financial_year { year := (2022 : Int), month := 4, day := 15 } ≤ y ∧
        y < min (maxFyOf (annualSchedule
          [{ date := { year := 2022, month := 4, day := 15 }, fy := 2022,
             principal := 0, interest := 0, payment := 0, balance := 0 }]) + 1)
          (get_financial_year { year := (2022 : Int), month := 4, day := 15 } + 20)) ∧
    (∀ row ∈ annualSchedule
        [{ date := { year := 2022, month := 4, day := 15 }, fy := 2022,
           principal := 0, interest := 0, payment := 0, balance := 0 }],
      row.fy ≤ maxFyOf (annualSchedule
        [{ date := { year := 2022, month := 4, day := 15 }, fy := 2022,
           principal := 0, interest := 0, payment := 0, balance := 0 }])) ∧
    maxFyOf (annualSchedule
        [{ date := { year := 2022, month := 4, day := 15 }, fy := 2022,
           principal := 0, interest := 0, payment := 0, balance := 0 }]) ∈
      (annualSchedule
        [{ date := { year := 2022, month := 4, day := 15 }, fy := 2022,
           principal := 0, interest := 0, payment := 0, balance := 0 }]).map Row.fy :=
  c7_year_span
    [{ date := { year := 2022, month := 4, day := 15 }, fy := 2022,
       principal := 0, interest := 0, payment := 0, balance := 0 }]
    "1" "A" 1
    { date := { year := 2022, month := 4, day := 15 }, fy := 2022,
      principal := 0, interest := 0, payment := 0, balance := 0 }
    [] rfl
    (List.Pairwise.cons (fun b hb => absurd hb (List.not_mem_nil b))
      List.Pairwise.nil)

theorem mem_unionCols_aux (c : String) : ∀ (frames : List Pivot) (acc : List String),
    c ∈ frames.foldl
        (fun acc p => acc ++ (pivotCols p).filter (fun c => ¬ acc.contains c)) acc ↔
      c ∈ acc ∨ ∃ q ∈ frames, c ∈ pivotCols q := by
  intro frames
  induction frames with
  | nil => intro acc; simp
  | cons p ps ih =>
    intro acc
    simp only [List.foldl_cons]
    rw [ih]
    constructor
    · rintro (hmem | ⟨q, hq, hc⟩)
      · rcases List.mem_append.mp hmem with h | h
        · exact Or.inl h
        · exact Or.inr ⟨p, List.mem_cons_self _ _, (List.mem_filter.mp h).1⟩
      · exact Or.inr ⟨q, List.mem_cons_of_mem _ hq, hc⟩
    · rintro (h | ⟨q, hq, hc⟩)
      · exact Or.inl (List.mem_append.mpr (Or.inl h))
      · rcases List.mem_cons.mp hq with rfl | hq
        · by_cases ha : c ∈ acc
          · exact Or.inl (List.mem_append.mpr (Or.inl ha))
          · refine Or.inl (List.mem_append.mpr (Or.inr ?_))
            rw [List.mem_filter]
            refine ⟨hc, ?_⟩
            simp [List.elem_iff, ha]
        · exact Or.inr ⟨q, hq, hc⟩

theorem cellValue_eq_none (p : Pivot) (c : String) (h : c ∉ pivotCols p) :
    cellValue p c = none := by
  unfold cellValue
  rw [List.find?_eq_none.mpr, Option.map_none']
  intro kv hkv
  simp only [beq_iff_eq]
  intro heq
  exact h (List.mem_map.mpr ⟨kv, hkv, heq⟩)

theorem sum_map_filter_of_zero {α : Type} (f : α → ℚ) (p : α → Bool) :
    ∀ l : List α, (∀ x ∈ l, p x = false → f x = 0) →
    (l.map f).sum = ((l.filter p).map f).sum := by
  intro l
  induction l with
  | nil => intro _; rfl
  | cons x xs ih =>
    intro h
    have hxs := ih (fun y hy hyp => h y (List.mem_cons_of_mem x hy) hyp)
    cases hpx : p x with
    | true => simp [List.filter_cons, hpx, hxs]
    | false =>
      have h0 := h x (List.mem_cons_self x xs) hpx
      simp [List.filter_cons, hpx, h0, hxs]

/-- The two one-year loans with disjoint fiscal spans used against C2. -/
def cexLoanA : Pivot :=
  { sr_no := "1", loan_name := "A", vals := [("Principal FY 2022-23", 5)] }

/-- Companion loan whose only fiscal year is the year `cexLoanA` lacks. -/
def cexLoanB : Pivot :=
  { sr_no := "2", loan_name := "B", vals := [("Principal FY 2023-24", 7)] }

/-- C2 fails as stated: combining two loans with disjoint spans, the other
loan's exclusive column is in the union, but the first loan's cell there is
the missing value (pandas NaN, a blank Excel cell), not the numeric 0. -/
theorem c2_counterexample :
    "Principal FY 2023-24" ∈ (create_excel_file [cexLoanA, cexLoanB] "Principal").cols ∧
    cellValue cexLoanA "Principal FY 2023-24" = none ∧
    ¬ (cellValue cexLoanA "Principal FY 2023-24" = some 0) := by
  refine ⟨?_, ?_, ?_⟩ <;> decide

/-- C2 (amended): the combined table's columns are the union of all loans'
own fiscal-year columns; a loan missing one of those years carries the
missing value (NaN, written as a blank cell) rather than a numeric 0 there,
and the row and column totals treat such missing cells as 0 (pandas sums
skip NaN), so each loan contributes 0 to the other's exclusive years. -/
theorem c2_column_union_amended (frames : List Pivot) (sheet c : String)
    (p : Pivot) :
    (c ∈ (create_excel_file frames sheet).cols ↔ ∃ q ∈ frames, c ∈ pivotCols q) ∧
    (p ∈ frames → c ∉ pivotCols p →
      cellValue p c = none ∧ (cellValue p c).getD 0 = 0) ∧
    (colTotal frames c =
      ((frames.filter (fun q => (cellValue q c).isSome)).map
        (fun q => (cellValue q c).getD 0)).sum) := by
  refine ⟨?_, ?_, ?_⟩
  · show c ∈ unionCols frames ↔ _
    unfold unionCols
    rw [mem_unionCols_aux]
    simp
  · intro _ hc
    have hn := cellValue_eq_none p c hc
    rw [hn]
    exact ⟨rfl, rfl⟩
  · unfold colTotal
    apply sum_map_filter_of_zero
    intro q _ hnone
    rcases hcv : cellValue q c with _ | v
    · rfl
    · rw [hcv] at hnone
      cases hnone

/-- Witness for C2 at the disjoint-span pair. -/
theorem c2_witness :
    ("Principal FY 2022-23" ∈
        (create_excel_file [cexLoanA, cexLoanB] "Principal").cols ↔
      ∃ q ∈ [cexLoanA, cexLoanB], "Principal FY 2022-23" ∈ pivotCols q) ∧
    (cexLoanA ∈ [cexLoanA, cexLoanB] →
      "Principal FY 2022-23" ∉ pivotCols cexLoanA →
      cellValue cexLoanA "Principal FY 2022-23" = none ∧
        (cellValue cexLoanA "Principal FY 2022-23").getD 0 = 0) ∧
    (colTotal [cexLoanA, cexLoanB] "Principal FY 2022-23" =
      (([cexLoanA, cexLoanB].filter
          (fun q => (cellValue q "Principal FY 2022-23").isSome)).map
        (fun q => (cellValue q "Principal FY 2022-23").getD 0)).sum) :=
  c2_column_union_amended [cexLoanA, cexLoanB] "Principal"
    "Principal FY 2022-23" cexLoanA
